import Mathlib

/-!
Shallow embedding of `src/common/file_util.cpp` (namespace Common::FS).

Strings are embedded as `List Char` (the character sequence of a
`std::string` / `std::string_view`).  `size_t` results such as
`std::string::rfind` are embedded as `Nat` with the explicit 64-bit
sentinel `npos = 2 ^ 64 - 1`; the places where the C++ code relies on
`size_t` wrap-around compute with an explicit `% 2 ^ 64`.
-/

namespace FileUtil

/-- Value of `std::string::npos` / `std::string_view::npos` on a 64-bit
platform (`SIZE_MAX`). -/
def npos : Nat := 2 ^ 64 - 1

/-- Value of `std::numeric_limits<u64>::max()`. -/
def maxU64 : Nat := 2 ^ 64 - 1

/-- Value of `std::numeric_limits<std::size_t>::max()` on a 64-bit
platform. -/
def maxSizeT : Nat := 2 ^ 64 - 1

/-- The `size_t` value of `n - 1` (wraps to `npos` when `n = 0`), as used
by the comparison `point == filename.size() - 1` in `SplitFilename83`. -/
def sub1size (n : Nat) : Nat := (n + (2 ^ 64 - 1)) % 2 ^ 64

/-- Index of the last occurrence of a character satisfying `p`, if any. -/
def lastIdxP (p : Char → Bool) : List Char → Option Nat
  | [] => none
  | a :: rest =>
    match lastIdxP p rest with
    | some i => some (i + 1)
    | none => if p a then some 0 else none

/-- Index of the first occurrence of a character satisfying `p`, if any. -/
def firstIdxP (p : Char → Bool) : List Char → Option Nat
  | [] => none
  | a :: rest => if p a then some 0 else (firstIdxP p rest).map (· + 1)

/-- Embedding of `std::string::rfind(c)`: index of the last occurrence of
`c`, or `npos`. -/
def rfindChar (l : List Char) (c : Char) : Nat :=
  (lastIdxP (fun a => a == c) l).getD npos

/-- Embedding of `std::string::rfind(c, pos)`: index of the last
occurrence of `c` at position `pos` or earlier, or `npos`. -/
def rfindCharFrom (l : List Char) (c : Char) (pos : Nat) : Nat :=
  (lastIdxP (fun a => a == c) (l.take (pos + 1))).getD npos

/-- Embedding of `std::string_view::find(c)`: index of the first
occurrence of `c`, or `npos`. -/
def findChar (l : List Char) (c : Char) : Nat :=
  (firstIdxP (fun a => a == c) l).getD npos

/-- Embedding of `std::replace(begin, end, c1, c2)`. -/
def replaceChar (c1 c2 : Char) (l : List Char) : List Char :=
  l.map fun c => if c = c1 then c2 else c

/-- Embedding of `RemoveTrailingSlash` (file_util.cpp:643-654): removes
one trailing `'\\'` or `'/'` if present. -/
def removeTrailingSlash (path : List Char) : List Char :=
  match path.getLast? with
  | none => path
  | some c => if c = '\\' ∨ c = '/' then path.dropLast else path

/-- Embedding of `DirectorySeparator` (file_util.h). -/
inductive DirectorySeparator where
  | ForwardSlash
  | BackwardSlash
  | PlatformDefault
deriving DecidableEq

/-- The pair `(type1, type2)` computed at the top of `SanitizePath`
(file_util.cpp:658-666).  `isWin32` selects the `#ifdef _WIN32` branch of
the `PlatformDefault` case. -/
def sepChars (isWin32 : Bool) (ds : DirectorySeparator) : Char × Char :=
  match ds with
  | .BackwardSlash => ('/', '\\')
  | .ForwardSlash => ('\\', '/')
  | .PlatformDefault => if isWin32 then ('/', '\\') else ('\\', '/')

/-- Inner loop of `std::unique(start, end, pred)` with predicate
`c1 == sep && c2 == sep`: `prev` is the last element kept so far. -/
def dedupSepGo (sep : Char) : Char → List Char → List Char
  | _, [] => []
  | prev, b :: rest =>
    if prev = sep ∧ b = sep then dedupSepGo sep prev rest
    else b :: dedupSepGo sep b rest

/-- Embedding of `path.erase(std::unique(path.begin(), path.end(), pred),
path.end())` with predicate `c1 == sep && c2 == sep`: collapses runs of
`sep` to a single occurrence. -/
def dedupSep (sep : Char) : List Char → List Char
  | [] => []
  | a :: rest => a :: dedupSepGo sep a rest

/-- The `std::unique` step of `SanitizePath` (file_util.cpp:670-678).  On
Win32 the start iterator is advanced past the first character so that a
leading doubled separator (network path) survives. -/
def sanitizeCollapse (isWin32 : Bool) (sep : Char) (path : List Char) : List Char :=
  if isWin32 then
    match path with
    | [] => []
    | a :: rest => a :: dedupSep sep rest
  else dedupSep sep path

/-- Embedding of `SanitizePath` (file_util.cpp:656-680): replace every
`type1` by `type2`, collapse runs of `type2` (on Win32 protecting a
leading doubled separator), then strip one trailing separator. -/
def sanitizePath (isWin32 : Bool) (ds : DirectorySeparator) (path : List Char) : List Char :=
  let t := sepChars isWin32 ds
  removeTrailingSlash (sanitizeCollapse isWin32 t.2 (replaceChar t.1 t.2 path))

/-- The `while (std::getline(stream, item, '/'))` loop of
`SplitPathComponents` (file_util.cpp:583-587), on a non-empty stream:
`acc` is the portion of the current item read so far.  `std::getline`
fails (without pushing an item) exactly when the stream is already at
end-of-file, hence the `[]` case after a consumed delimiter. -/
def gsplitGo (acc : List Char) : List Char → List (List Char)
  | [] => [acc]
  | c :: rest =>
    if c = '/' then
      match rest with
      | [] => [acc]
      | r => acc :: gsplitGo [] r
    else gsplitGo (acc ++ [c]) rest

/-- Embedding of `SplitPathComponents` (file_util.cpp:578-590): replace
every backslash by a forward slash, then split on `'/'` with
`std::getline`. -/
def splitPathComponents (filename : List Char) : List (List Char) :=
  match replaceChar '\\' '/' filename with
  | [] => []
  | l => gsplitGo [] l

/-- Embedding of `GetParentPath` (file_util.cpp:592-604). -/
def getParentPath (path : List Char) : List Char :=
  let nameBckIndex := rfindChar path '\\'
  let nameFwdIndex := rfindChar path '/'
  let nameIndex :=
    if nameBckIndex = npos ∨ nameFwdIndex = npos then min nameBckIndex nameFwdIndex
    else max nameBckIndex nameFwdIndex
  path.take nameIndex

/-- The leading `while (path[0] == '\\' || path[0] == '/')` strip loop of
`GetPathWithoutTop` (file_util.cpp:607-616), including its early empty
returns. -/
def stripLeadingSeps : List Char → List Char
  | [] => []
  | c :: rest => if c = '\\' ∨ c = '/' then stripLeadingSeps rest else c :: rest

/-- Embedding of `GetPathWithoutTop` (file_util.cpp:606-621).  When
neither separator occurs, both finds give `npos` and `npos + 1` wraps to
`0` in `size_t` arithmetic, so `substr` keeps the whole stripped path. -/
def getPathWithoutTop (path : List Char) : List Char :=
  let stripped := stripLeadingSeps path
  stripped.drop ((min (findChar stripped '\\') (findChar stripped '/') + 1) % 2 ^ 64)

/-- ASCII `std::toupper`. -/
def toUpperChar (c : Char) : Char :=
  if 'a' ≤ c ∧ c ≤ 'z' then Char.ofNat (c.toNat - 32) else c

/-- The `forbidden_characters` string view of `SplitFilename83`
(file_util.cpp:542). -/
def forbiddenCharacters : List Char :=
  ['.', '"', '/', '\\', '[', ']', ':', ';', '=', ',', ' ']

/-- The short-name loop of `SplitFilename83` (file_util.cpp:554-567):
`arr` is the 8-slot space-filled array, `j` the write index. -/
def shortNameLoop : List Char → List Char → Nat → List Char
  | [], arr, _ => arr
  | c :: rest, arr, j =>
    if forbiddenCharacters.contains c then shortNameLoop rest arr j
    else if j = 8 then (arr.set 6 '~').set 7 '1'
    else shortNameLoop rest (arr.set j (toUpperChar c)) (j + 1)

/-- The extension loop of `SplitFilename83` (file_util.cpp:570-575);
no forbidden-character filter is applied here. -/
def extLoop : List Char → List Char → Nat → List Char
  | [], arr, _ => arr
  | c :: rest, arr, j => extLoop rest (arr.set j (toUpperChar c)) (j + 1)

/-- Embedding of `SplitFilename83` (file_util.cpp:540-576).  The result
models the 8-character short-name array and the 3-character extension
array (their constant trailing `'\0'` slots are omitted). -/
def splitFilename83 (filename : List Char) : List Char × List Char :=
  let shortName := [' ', ' ', ' ', ' ', ' ', ' ', ' ', ' ']
  let extension := [' ', ' ', ' ']
  let point := rfindChar filename '.'
  let point :=
    if point = sub1size filename.length then rfindCharFrom filename '.' point else point
  let shortName := shortNameLoop (filename.take point) shortName 0
  let extension :=
    if point ≠ npos then extLoop ((filename.drop (point + 1)).take 3) extension 0
    else extension
  (shortName, extension)

/-- Embedding of the `UserPath` role enumeration (file_util.h). -/
inductive UserPath where
  | RootDir
  | UserDir
  | ConfigDir
  | CacheDir
  | SDMCDir
  | NANDDir
  | LoadDir
  | DumpDir
  | ScreenshotsDir
  | ShaderDir
  | SysDataDir
  | KeysDir
  | LogDir
deriving DecidableEq

/-- Modelled from the spec: the directory-name constants of
`common_paths.h`, which is not under `src/`.  Per the spec (§6) the exact
suffix strings are a deployment detail; each role has one fixed non-empty,
separator-free suffix.  The values used here are the ones the source
concatenates (`ROOT_DIR`, `USERDATA_DIR`, `CONFIG_DIR`, ...). -/
def DIR_SEP : List Char := "/".data

/-- Modelled from the spec: see `DIR_SEP`. -/
def ROOT_DIR : List Char := ".".data

/-- Modelled from the spec: see `DIR_SEP`. -/
def USERDATA_DIR : List Char := "user".data

/-- Modelled from the spec: see `DIR_SEP`. -/
def CONFIG_DIR : List Char := "config".data

/-- Modelled from the spec: see `DIR_SEP`. -/
def CACHE_DIR : List Char := "cache".data

/-- Modelled from the spec: see `DIR_SEP`. -/
def SDMC_DIR : List Char := "sdmc".data

/-- Modelled from the spec: see `DIR_SEP`. -/
def NAND_DIR : List Char := "nand".data

/-- Modelled from the spec: see `DIR_SEP`. -/
def LOAD_DIR : List Char := "load".data

/-- Modelled from the spec: see `DIR_SEP`. -/
def DUMP_DIR : List Char := "dump".data

/-- Modelled from the spec: see `DIR_SEP`. -/
def SCREENSHOTS_DIR : List Char := "screenshots".data

/-- Modelled from the spec: see `DIR_SEP`. -/
def SHADER_DIR : List Char := "shader".data

/-- Modelled from the spec: see `DIR_SEP`. -/
def SYSDATA_DIR : List Char := "sysdata".data

/-- Modelled from the spec: see `DIR_SEP`. -/
def KEYS_DIR : List Char := "keys".data

/-- Modelled from the spec: see `DIR_SEP`. -/
def LOG_DIR : List Char := "log".data

/-- Modelled from the spec: see `DIR_SEP`. -/
def EMU_DATA_DIR : List Char := "yuzu".data

/-- The `static std::unordered_map<UserPath, std::string> paths` of
`GetUserPath` (file_util.cpp:438), as a total structure.  An absent key
is represented by the empty string, which is exactly what
`std::unordered_map::operator[]` default-constructs, and is how the code
itself detects the not-yet-initialized state (`user_path.empty()`). -/
structure PathState where
  rootDir : List Char
  userDir : List Char
  configDir : List Char
  cacheDir : List Char
  sdmcDir : List Char
  nandDir : List Char
  loadDir : List Char
  dumpDir : List Char
  screenshotsDir : List Char
  shaderDir : List Char
  sysDataDir : List Char
  keysDir : List Char
  logDir : List Char
deriving DecidableEq

/-- The freshly constructed `paths` map: every role reads as the empty
string. -/
def emptyState : PathState :=
  ⟨[], [], [], [], [], [], [], [], [], [], [], [], []⟩

/-- Reading `paths[path]`. -/
def resolve (s : PathState) : UserPath → List Char
  | .RootDir => s.rootDir
  | .UserDir => s.userDir
  | .ConfigDir => s.configDir
  | .CacheDir => s.cacheDir
  | .SDMCDir => s.sdmcDir
  | .NANDDir => s.nandDir
  | .LoadDir => s.loadDir
  | .DumpDir => s.dumpDir
  | .ScreenshotsDir => s.screenshotsDir
  | .ShaderDir => s.shaderDir
  | .SysDataDir => s.sysDataDir
  | .KeysDir => s.keysDir
  | .LogDir => s.logDir

/-- Writing `paths[path] = v`. -/
def setRole (s : PathState) : UserPath → List Char → PathState
  | .RootDir, v => { s with rootDir := v }
  | .UserDir, v => { s with userDir := v }
  | .ConfigDir, v => { s with configDir := v }
  | .CacheDir, v => { s with cacheDir := v }
  | .SDMCDir, v => { s with sdmcDir := v }
  | .NANDDir, v => { s with nandDir := v }
  | .LoadDir, v => { s with loadDir := v }
  | .DumpDir, v => { s with dumpDir := v }
  | .ScreenshotsDir, v => { s with screenshotsDir := v }
  | .ShaderDir, v => { s with shaderDir := v }
  | .SysDataDir, v => { s with sysDataDir := v }
  | .KeysDir, v => { s with keysDir := v }
  | .LogDir, v => { s with logDir := v }

/-- Host environment of `GetUserPath` in the non-Win32 build (the branch
at file_util.cpp:453-466): whether `ROOT_DIR DIR_SEP USERDATA_DIR`
exists, the three `GetUserDirectory` results, and the filesystem
collaborator `IsDirectory`. -/
structure Env where
  portableExists : Bool
  xdgData : List Char
  xdgConfig : List Char
  xdgCache : List Char
  isDir : List Char → Bool

/-- The first-run initialization block of `GetUserPath`
(file_util.cpp:442-478), non-Win32 branch.  On the first call the map
holds no other entry, so the `emplace` calls behave as plain
assignments. -/
def initPaths (e : Env) (s : PathState) : PathState :=
  if e.portableExists then
    let userPath := ROOT_DIR ++ DIR_SEP ++ USERDATA_DIR ++ DIR_SEP
    { s with
      userDir := userPath
      configDir := userPath ++ CONFIG_DIR ++ DIR_SEP
      cacheDir := userPath ++ CACHE_DIR ++ DIR_SEP
      sdmcDir := userPath ++ SDMC_DIR ++ DIR_SEP
      nandDir := userPath ++ NAND_DIR ++ DIR_SEP
      loadDir := userPath ++ LOAD_DIR ++ DIR_SEP
      dumpDir := userPath ++ DUMP_DIR ++ DIR_SEP
      screenshotsDir := userPath ++ SCREENSHOTS_DIR ++ DIR_SEP
      shaderDir := userPath ++ SHADER_DIR ++ DIR_SEP
      sysDataDir := userPath ++ SYSDATA_DIR ++ DIR_SEP
      keysDir := userPath ++ KEYS_DIR ++ DIR_SEP
      logDir := userPath ++ LOG_DIR ++ DIR_SEP }
  else
    let userPath := e.xdgData ++ DIR_SEP ++ EMU_DATA_DIR ++ DIR_SEP
    { s with
      userDir := userPath
      configDir := e.xdgConfig ++ DIR_SEP ++ EMU_DATA_DIR ++ DIR_SEP
      cacheDir := e.xdgCache ++ DIR_SEP ++ EMU_DATA_DIR ++ DIR_SEP
      sdmcDir := userPath ++ SDMC_DIR ++ DIR_SEP
      nandDir := userPath ++ NAND_DIR ++ DIR_SEP
      loadDir := userPath ++ LOAD_DIR ++ DIR_SEP
      dumpDir := userPath ++ DUMP_DIR ++ DIR_SEP
      screenshotsDir := userPath ++ SCREENSHOTS_DIR ++ DIR_SEP
      shaderDir := userPath ++ SHADER_DIR ++ DIR_SEP
      sysDataDir := userPath ++ SYSDATA_DIR ++ DIR_SEP
      keysDir := userPath ++ KEYS_DIR ++ DIR_SEP
      logDir := userPath ++ LOG_DIR ++ DIR_SEP }

/-- The lazy first-run check `if (user_path.empty())` of `GetUserPath`. -/
def lazyInit (e : Env) (s : PathState) : PathState :=
  if resolve s .UserDir = [] then initPaths e s else s

/-- The `switch (path)` cascade of `GetUserPath` (file_util.cpp:488-501).
Note that the `UserDir` case reads `paths[UserPath::RootDir]` (not the
newly stored value) and overwrites `user_path`, i.e. `paths[UserDir]`,
with it. -/
def cascade (s : PathState) : UserPath → PathState
  | .RootDir => { s with userDir := s.rootDir ++ DIR_SEP }
  | .UserDir =>
    let u := s.rootDir ++ DIR_SEP
    { s with
      userDir := u
      configDir := u ++ CONFIG_DIR ++ DIR_SEP
      cacheDir := u ++ CACHE_DIR ++ DIR_SEP
      sdmcDir := u ++ SDMC_DIR ++ DIR_SEP
      nandDir := u ++ NAND_DIR ++ DIR_SEP }
  | _ => s

/-- Embedding of `GetUserPath` (file_util.cpp:437-505), non-Win32 build:
lazy first-run initialization, then the override logic guarded by
`!new_path.empty()` and `IsDirectory(new_path)` (a rejected override
returns the previous value and leaves every entry unchanged), then the
cascade switch.  Returns the new map together with `paths[path]`. -/
def getUserPath (e : Env) (s : PathState) (path : UserPath) (newPath : List Char) :
    PathState × List Char :=
  let s1 := lazyInit e s
  if newPath = [] then (s1, resolve s1 path)
  else if e.isDir newPath then
    let s3 := cascade (setRole s1 path newPath) path
    (s3, resolve s3 path)
  else (s1, resolve s1 path)

/-- State of one open `FILE*`: the byte content of the file and the
current position, for an always-seekable in-memory stream. -/
structure FileData where
  content : List Nat
  pos : Nat
deriving DecidableEq

/-- Embedding of `IOFile::IsOpen` (`m_file != nullptr`); a handle is
`none` when closed. -/
def fileIsOpen (f : Option FileData) : Bool := f.isSome

/-- Embedding of `GetSize(FILE* f)` (file_util.cpp:195-208): record the
position, seek to the end, read the position as the size, seek back.  On
the in-memory stream every seek succeeds, so the result is the content
length. -/
def fsGetSize (fd : FileData) : Nat := fd.content.length

/-- Embedding of `IOFile::GetSize` (file_util.cpp:734-739): `0` when the
handle is not open. -/
def fileGetSize : Option FileData → Nat
  | some fd => fsGetSize fd
  | none => 0

/-- Embedding of `IOFile::Tell` (file_util.cpp:745-750):
`std::numeric_limits<u64>::max()` when the handle is not open. -/
def fileTell : Option FileData → Nat
  | some fd => fd.pos
  | none => maxU64

/-- Embedding of `IOFile::ReadImpl` (file_util.cpp:756-768):
`std::numeric_limits<std::size_t>::max()` when the handle is not open,
`0` when zero elements are requested, otherwise the `std::fread` count of
complete `dataSize`-byte elements available from the current position. -/
def fileReadImpl (f : Option FileData) (length dataSize : Nat) : Nat :=
  match f with
  | none => maxSizeT
  | some fd =>
    if length = 0 then 0
    else min length ((fd.content.length - fd.pos) / dataSize)

/-- Embedding of `IOFile::WriteImpl` (file_util.cpp:770-782):
`std::numeric_limits<std::size_t>::max()` when the handle is not open,
`0` when zero elements are requested, otherwise the `std::fwrite` count
(a full transfer on the in-memory stream). -/
def fileWriteImpl (f : Option FileData) (length _dataSize : Nat) : Nat :=
  match f with
  | none => maxSizeT
  | some _ => if length = 0 then 0 else length

/-- Spec-side predicate for the claim wording "a direct descendant
(immediate subdirectory)": `child` is `parent` followed by one non-empty
separator-free component and a trailing separator. -/
def isDirectChild (child parent : List Char) : Bool :=
  parent.isPrefixOf child &&
    (let rest := child.drop parent.length
     decide (2 ≤ rest.length) && (rest.getLast? == some '/')
       && !(rest.dropLast.contains '/'))

/-- Spec-side splitter following the claim wording for
`SplitPathComponents`: split on `'/'` preserving every empty component,
including a trailing one. -/
def splitAll : List Char → List (List Char)
  | [] => [[]]
  | c :: rest =>
    if c = '/' then [] :: splitAll rest
    else
      match splitAll rest with
      | h :: t => (c :: h) :: t
      | [] => [[c]]

/-- Applies `f` to the head entry of a component list. -/
def mapHead (f : List Char → List Char) : List (List Char) → List (List Char)
  | [] => []
  | h :: t => f h :: t

/-- Whether a character list ends with `'/'`. -/
def endsSlash (l : List Char) : Bool := l.getLast? == some '/'

/-- Maximum of two optional indices (`none` is absent, not smallest). -/
def omax : Option Nat → Option Nat → Option Nat
  | none, none => none
  | none, some j => some j
  | some i, none => some i
  | some i, some j => some (max i j)

/-- Spec-side index of the right-most separator of either kind. -/
def lastSepIdx (l : List Char) : Option Nat :=
  lastIdxP (fun a => a == '\\' || a == '/') l

/-- No two adjacent occurrences of `sep`. -/
def noAdj (sep : Char) : List Char → Bool
  | a :: b :: t => !(a == sep && b == sep) && noAdj sep (b :: t)
  | _ => true

/-- A non-Win32 environment whose portable directory exists and where
every path passes the `IsDirectory` check. -/
def portableTrueEnv : Env := ⟨true, [], [], [], fun _ => true⟩

/-- A non-Win32 environment whose portable directory exists and where no
path passes the `IsDirectory` check. -/
def portableNoDirEnv : Env := ⟨true, [], [], [], fun _ => false⟩

/-- A non-Win32 environment without the portable directory, whose XDG
data and config homes differ. -/
def xdgSplitEnv : Env := ⟨false, "/d".data, "/c".data, "/h".data, fun _ => false⟩

theorem firstIdxP_eq_none {p : Char → Bool} {l : List Char}
    (h : ∀ c ∈ l, p c = false) : firstIdxP p l = none := by
  induction l with
  | nil => rfl
  | cons a t ih =>
    have ha := h a (List.mem_cons_self a t)
    simp [firstIdxP, ha, ih fun c hc => h c (List.mem_cons_of_mem a hc)]

/-- C10: for every path whose form after stripping leading separators
contains no further separator of either kind, `GetPathWithoutTop`
returns that stripped path unchanged (the `npos + 1` wrap selects
`substr(0)`), not the empty string. -/
theorem c10_theorem (p : List Char)
    (h : ∀ c ∈ stripLeadingSeps p, ¬(c = '\\' ∨ c = '/')) :
    getPathWithoutTop p = stripLeadingSeps p := by
  have hb : firstIdxP (fun a => a == '\\') (stripLeadingSeps p) = none :=
    firstIdxP_eq_none fun c hc => by
      have := h c hc
      simp only [not_or] at this
      simp [this.1]
  have hf : firstIdxP (fun a => a == '/') (stripLeadingSeps p) = none :=
    firstIdxP_eq_none fun c hc => by
      have := h c hc
      simp only [not_or] at this
      simp [this.2]
  simp [getPathWithoutTop, findChar, hb, hf]
  norm_num [npos]

/-- Witness for `c10_theorem` at the concrete path `"///abc"`. -/
theorem c10_witness : getPathWithoutTop ("///abc".data) = stripLeadingSeps ("///abc".data) :=
  c10_theorem ("///abc".data) (by decide)

/-- C8: overriding any role with a non-empty path that is not a directory
is rejected: the initialized registry state is returned unchanged and the
resolved value equals the value from before the call. -/
theorem c8_theorem (e : Env) (s : PathState) (r : UserPath) (p : List Char)
    (hinit : resolve s .UserDir ≠ []) (hp : p ≠ []) (hdir : e.isDir p = false) :
    getUserPath e s r p = (s, resolve s r) := by
  simp [getUserPath, lazyInit, hinit, hp, hdir]

/-- Witness for `c8_theorem`: an initialized portable registry, the
`ConfigDir` role and the rejected path `"/nope"`. -/
theorem c8_witness :
    getUserPath portableNoDirEnv (initPaths portableNoDirEnv emptyState) .ConfigDir ("/nope".data)
      = (initPaths portableNoDirEnv emptyState,
         resolve (initPaths portableNoDirEnv emptyState) .ConfigDir) :=
  c8_theorem portableNoDirEnv (initPaths portableNoDirEnv emptyState) .ConfigDir ("/nope".data)
    (by decide) (by decide) (by decide)

/-- C9 counterexample: `IOFile::GetSize` on a handle that is not open
returns `0`, which is not the maximum-value sentinel the claim
requires. -/
theorem c9_counterexample : fileGetSize none = 0 ∧ (0 : Nat) ≠ maxU64 := by decide

/-- C9 (amended): on a handle that is not open, `Tell`, `ReadImpl` and
`WriteImpl` report failure via the maximum-value sentinel while `GetSize`
returns `0`; a read or write of zero elements on an open handle returns
zero. -/
theorem c9_amended (f g : Option FileData) (n d : Nat)
    (hf : fileIsOpen f = false) (hg : fileIsOpen g = true) :
    (fileTell f = maxU64 ∧ fileReadImpl f n d = maxSizeT
      ∧ fileWriteImpl f n d = maxSizeT ∧ fileGetSize f = 0)
    ∧ (fileReadImpl g 0 d = 0 ∧ fileWriteImpl g 0 d = 0) := by
  cases f with
  | some fd => simp [fileIsOpen] at hf
  | none =>
    cases g with
    | none => simp [fileIsOpen] at hg
    | some gd => simp [fileTell, fileReadImpl, fileWriteImpl, fileGetSize]

/-- Witness for `c9_amended`: the closed handle and an open handle on an
empty file, with a five-element transfer request. -/
theorem c9_witness :
    (fileTell none = maxU64 ∧ fileReadImpl none 5 4 = maxSizeT
      ∧ fileWriteImpl none 5 4 = maxSizeT ∧ fileGetSize none = 0)
    ∧ (fileReadImpl (some ⟨[], 0⟩) 0 4 = 0 ∧ fileWriteImpl (some ⟨[], 0⟩) 0 4 = 0) :=
  c9_amended none (some ⟨[], 0⟩) 5 4 rfl rfl

/-- C4: evaluation at the failing input `"a.b."`.  The re-find
`rfind('.', point)` returns `point` itself (second conjunct), so the
split stays at the trailing dot and the extension is the blank
space-padded one, contrary to the claim's second-to-last-dot split. -/
theorem c4_eval :
    splitFilename83 ("a.b.".data) = ("AB      ".data, "   ".data)
    ∧ rfindCharFrom ("a.b.".data) '.' 3 = 3 := by decide

/-- C5 counterexample: the encoded base name of `"LongFileName.txt"` does
not begin with the seven characters `"LONGFIL"`. -/
theorem c5_counterexample :
    ("LONGFIL".data).isPrefixOf (splitFilename83 ("LongFileName.txt".data)).1 = false := by
  decide

/-- C5 (amended): encoding `"LongFileName.txt"` yields the base name
`"LONGFI~1"` — six characters `"LONGFI"` followed by the two-character
disambiguation marker in the 7th and 8th slots — and extension
`"TXT"`. -/
theorem c5_amended :
    splitFilename83 ("LongFileName.txt".data) = ("LONGFI~1".data, "TXT".data) := by decide

/-- C3 counterexample: in the Win32 configuration the doubled-separator
protection interacts with trailing-slash removal, so `Sanitize` is not
idempotent at `"//"`. -/
theorem c3_counterexample :
    sanitizePath true .ForwardSlash (sanitizePath true .ForwardSlash ("//".data))
      ≠ sanitizePath true .ForwardSlash ("//".data) := by decide

/-- C6 counterexample: `GetParentPath` on the separator-free path
`"abc"` returns the whole path (`substr(0, npos)`), not the empty
string. -/
theorem c6_counterexample :
    getParentPath ("abc".data) = "abc".data ∧ "abc".data ≠ ([] : List Char) := by decide

/-- C7 counterexample: the input `"a/"` ends with a separator yet
`SplitPathComponents` returns `["a"]` with no empty last entry. -/
theorem c7_counterexample :
    splitPathComponents ("a/".data) = ["a".data] ∧ ("a/".data).getLast? = some '/' := by
  decide

/-- C1 counterexample: after XDG-branch initialization with distinct data
and config homes, `Resolve(ConfigDir)` is not a direct descendant of
`Resolve(UserDir)`. -/
theorem c1_counterexample :
    isDirectChild (resolve ((getUserPath xdgSplitEnv emptyState .ConfigDir []).1) .ConfigDir)
      (resolve ((getUserPath xdgSplitEnv emptyState .ConfigDir []).1) .UserDir) = false := by
  decide

/-- C2: evaluation at the failing input.  On a freshly initialized
portable registry, `Override(UserDir, "/mnt/newuser")` (with the
directory existing) sets `UserDir` to `paths[RootDir] + "/" = "/"` and
recomputes the dependent roles from that, so none of them mention the
supplied root. -/
theorem c2_code_bug_eval :
    resolve ((getUserPath portableTrueEnv
        ((getUserPath portableTrueEnv emptyState .ConfigDir []).1)
        .UserDir ("/mnt/newuser".data)).1) .UserDir = "/".data
    ∧ resolve ((getUserPath portableTrueEnv
        ((getUserPath portableTrueEnv emptyState .ConfigDir []).1)
        .UserDir ("/mnt/newuser".data)).1) .ConfigDir = "/config/".data
    ∧ resolve ((getUserPath portableTrueEnv
        ((getUserPath portableTrueEnv emptyState .ConfigDir []).1)
        .UserDir ("/mnt/newuser".data)).1) .CacheDir = "/cache/".data
    ∧ ("/mnt/newuser".data).isPrefixOf
        (resolve ((getUserPath portableTrueEnv
          ((getUserPath portableTrueEnv emptyState .ConfigDir []).1)
          .UserDir ("/mnt/newuser".data)).1) .ConfigDir) = false := by decide

theorem isDirectChild_append_seg (u seg : List Char) (hne : seg ≠ [])
    (hsl : seg.contains '/' = false) :
    isDirectChild (u ++ (seg ++ ['/'])) u = true := by
  have hlen : 1 ≤ seg.length := List.length_pos.mpr hne
  simp [isDirectChild, List.isPrefixOf_iff_prefix, List.prefix_append, List.drop_left,
    List.getLast?_concat, List.dropLast_concat, hsl, List.length_append]
  exact ⟨hlen, by simpa using hsl⟩

theorem isDirectChild_config (u : List Char) :
    isDirectChild (u ++ CONFIG_DIR ++ DIR_SEP) u = true := by
  rw [List.append_assoc]
  have h : CONFIG_DIR ++ DIR_SEP = "config".data ++ ['/'] := by decide
  rw [h]
  exact isDirectChild_append_seg u ("config".data) (by decide) (by decide)

/-- C1 (amended): after portable-branch initialization, and after any
accepted override of the user-data-root role, `Resolve(ConfigDir)` is a
direct descendant of `Resolve(UserDir)`; the property does not hold for
XDG-branch initialization or after overriding `ConfigDir` itself. -/
theorem c1_amended (e : Env) (s : PathState) (p : List Char)
    (hport : e.portableExists = true) (hdir : e.isDir p = true) (hp : p ≠ []) :
    isDirectChild (resolve ((getUserPath e emptyState .ConfigDir []).1) .ConfigDir)
        (resolve ((getUserPath e emptyState .ConfigDir []).1) .UserDir) = true
    ∧ isDirectChild (resolve ((getUserPath e s .UserDir p).1) .ConfigDir)
        (resolve ((getUserPath e s .UserDir p).1) .UserDir) = true := by
  constructor
  · have h0 : (getUserPath e emptyState .ConfigDir []).1 = initPaths e emptyState := by
      simp [getUserPath, lazyInit, resolve, emptyState]
    rw [h0]
    simp only [initPaths, hport, if_true, resolve]
    exact isDirectChild_config _
  · have h1 : (getUserPath e s .UserDir p).1
        = cascade (setRole (lazyInit e s) .UserDir p) .UserDir := by
      simp [getUserPath, hp, hdir]
    rw [h1]
    simp only [cascade, resolve]
    exact isDirectChild_config _

/-- Witness for `c1_amended`: the portable environment, the fresh state
and the override path `"/x"`. -/
theorem c1_witness :
    isDirectChild
        (resolve ((getUserPath portableTrueEnv emptyState .ConfigDir []).1) .ConfigDir)
        (resolve ((getUserPath portableTrueEnv emptyState .ConfigDir []).1) .UserDir) = true
    ∧ isDirectChild
        (resolve ((getUserPath portableTrueEnv emptyState .UserDir ("/x".data)).1) .ConfigDir)
        (resolve ((getUserPath portableTrueEnv emptyState .UserDir ("/x".data)).1) .UserDir)
        = true :=
  c1_amended portableTrueEnv emptyState ("/x".data) rfl rfl (by decide)

theorem lastIdxP_or (p q : Char → Bool) (l : List Char) :
    lastIdxP (fun a => p a || q a) l = omax (lastIdxP p l) (lastIdxP q l) := by
  induction l with
  | nil => rfl
  | cons a t ih =>
    simp only [lastIdxP, ih]
    cases hp : lastIdxP p t <;> cases hq : lastIdxP q t <;>
      rcases Bool.eq_false_or_eq_true (p a) with hpa | hpa <;>
        rcases Bool.eq_false_or_eq_true (q a) with hqa | hqa <;>
          simp [omax, hpa, hqa] <;> omega

theorem lastIdxP_bound (p : Char → Bool) (l : List Char) (i : Nat)
    (h : lastIdxP p l = some i) : i < l.length := by
  induction l generalizing i with
  | nil => simp [lastIdxP] at h
  | cons a t ih =>
    simp only [lastIdxP] at h
    cases ht : lastIdxP p t with
    | some j =>
      rw [ht] at h
      simp only [Option.some.injEq] at h
      have hj := ih j ht
      simp only [List.length_cons]
      omega
    | none =>
      rw [ht] at h
      rcases Bool.eq_false_or_eq_true (p a) with hpa | hpa
      · simp [hpa] at h
        simp only [List.length_cons]
        omega
      · simp [hpa] at h

/-- C6 (amended): `GetParentPath` returns the prefix of the path before
the right-most separator of either kind, and returns the path unchanged
(not the empty string) when no separator is present; the `take
p.length`/`take npos` forms coincide in that case.  The length bound
reflects `size_t` indexing. -/
theorem c6_amended (path : List Char) (hlen : path.length ≤ npos) :
    getParentPath path = path.take ((lastSepIdx path).getD path.length) := by
  have hcomb := lastIdxP_or (fun a => a == '\\') (fun a => a == '/') path
  simp only [getParentPath, rfindChar, lastSepIdx, hcomb]
  cases hb : lastIdxP (fun a => a == '\\') path with
  | none =>
    cases hf : lastIdxP (fun a => a == '/') path with
    | none =>
      simp [omax, List.take_of_length_le hlen, List.take_length]
    | some j =>
      have hj : j < npos := lt_of_lt_of_le (lastIdxP_bound _ _ _ hf) hlen
      simp [omax, Nat.min_eq_right hj.le]
  | some i =>
    have hi : i < npos := lt_of_lt_of_le (lastIdxP_bound _ _ _ hb) hlen
    cases hf : lastIdxP (fun a => a == '/') path with
    | none =>
      simp [omax, Nat.min_eq_left hi.le]
    | some j =>
      have hj : j < npos := lt_of_lt_of_le (lastIdxP_bound _ _ _ hf) hlen
      simp [omax, Nat.ne_of_lt hi, Nat.ne_of_lt hj]

/-- Witness for `c6_amended` at the concrete path `"a/b"`. -/
theorem c6_witness :
    getParentPath ("a/b".data)
      = ("a/b".data).take ((lastSepIdx ("a/b".data)).getD ("a/b".data).length) :=
  c6_amended ("a/b".data) (by decide)

theorem splitAll_ne_nil (l : List Char) : splitAll l ≠ [] := by
  cases l with
  | nil => simp [splitAll]
  | cons c rest =>
    simp only [splitAll]
    split
    · simp
    · cases hs : splitAll rest <;> simp

theorem endsSlash_cons_cons (c d : Char) (r : List Char) :
    endsSlash (c :: d :: r) = endsSlash (d :: r) := by
  simp [endsSlash, List.getLast?_cons_cons]

theorem mapHead_nil (s : List (List Char)) : mapHead (fun x => [] ++ x) s = s := by
  cases s <;> simp [mapHead]

theorem splitAll_slash (rest : List Char) : splitAll ('/' :: rest) = [] :: splitAll rest := by
  rw [splitAll]
  simp

theorem splitAll_cons_ne (c : Char) (rest : List Char) (hc : ¬c = '/')
    (sh : List Char) (st : List (List Char)) (hs : splitAll rest = sh :: st) :
    splitAll (c :: rest) = (c :: sh) :: st := by
  rw [splitAll, if_neg hc, hs]

theorem splitAll_len2 (l : List Char) (h : endsSlash l = true) :
    2 ≤ (splitAll l).length := by
  induction l with
  | nil => simp [endsSlash] at h
  | cons c rest ih =>
    cases rest with
    | nil =>
      have hc : c = '/' := by simpa [endsSlash, List.getLast?_singleton] using h
      subst hc
      rw [splitAll_slash]
      simp [splitAll]
    | cons d rest' =>
      have h' : endsSlash (d :: rest') = true := by
        rw [← endsSlash_cons_cons c d rest']
        exact h
      have ih' := ih h'
      by_cases hc : c = '/'
      · subst hc
        rw [splitAll_slash]
        simp only [List.length_cons]
        omega
      · cases hs : splitAll (d :: rest') with
        | nil => exact absurd hs (splitAll_ne_nil _)
        | cons sh st =>
          rw [splitAll_cons_ne c _ hc sh st hs]
          rw [hs] at ih'
          simp only [List.length_cons] at ih' ⊢
          omega

theorem gsplitGo_eq (l : List Char) : ∀ acc, gsplitGo acc l =
    mapHead (fun x => acc ++ x)
      (if endsSlash l = true then (splitAll l).dropLast else splitAll l) := by
  induction l with
  | nil => intro acc; simp [gsplitGo, splitAll, endsSlash, mapHead]
  | cons c rest ih =>
    intro acc
    by_cases hc : c = '/'
    · subst hc
      cases rest with
      | nil => simp [gsplitGo, splitAll, endsSlash, mapHead]
      | cons d rest' =>
        have hstep : gsplitGo acc ('/' :: d :: rest') = acc :: gsplitGo [] (d :: rest') := by
          simp [gsplitGo]
        rw [hstep, ih, mapHead_nil, endsSlash_cons_cons]
        have hs := splitAll_ne_nil (d :: rest')
        rw [splitAll_slash]
        by_cases he : endsSlash (d :: rest') = true
        · simp only [he, if_true]
          rw [List.dropLast_cons_of_ne_nil hs]
          simp [mapHead]
        · simp only [he, if_false]
          simp [mapHead]
    · cases rest with
      | nil =>
        have h1 : gsplitGo acc [c] = [acc ++ [c]] := by simp [gsplitGo, hc]
        have h2 : endsSlash [c] = false := by simp [endsSlash, List.getLast?_singleton, hc]
        have h3 : splitAll [c] = [[c]] := splitAll_cons_ne c [] hc [] [] rfl
        rw [h1, h2, h3]
        simp [mapHead]
      | cons d rest' =>
        have hstep : gsplitGo acc (c :: d :: rest') = gsplitGo (acc ++ [c]) (d :: rest') := by
          simp [gsplitGo, hc]
        rw [hstep, ih, endsSlash_cons_cons]
        cases hs : splitAll (d :: rest') with
        | nil => exact absurd hs (splitAll_ne_nil _)
        | cons sh st =>
          rw [splitAll_cons_ne c _ hc sh st hs]
          by_cases he : endsSlash (d :: rest') = true
          · have h2 := splitAll_len2 (d :: rest') he
            rw [hs] at h2
            have hst : st ≠ [] := by
              intro hnil
              rw [hnil] at h2
              simp at h2
            simp only [he, if_true]
            rw [List.dropLast_cons_of_ne_nil hst]
            cases hst2 : st.dropLast with
            | nil =>
              simp [mapHead, List.dropLast_cons_of_ne_nil hst, hst2]
            | cons u v =>
              simp [mapHead, List.dropLast_cons_of_ne_nil hst, hst2]
          · simp only [he, if_false]
            simp [mapHead]

/-- C7 (amended): `SplitPathComponents` normalizes backslashes to forward
slashes and splits on `'/'`, preserving empty components from leading and
doubled separators; but when the normalized input is empty or ends with a
separator the final empty component is dropped (`std::getline` fails at
end-of-file), so a trailing separator yields no empty last entry. -/
theorem c7_amended (p : List Char) :
    splitPathComponents p =
      (if replaceChar '\\' '/' p = [] ∨ endsSlash (replaceChar '\\' '/' p) = true
       then (splitAll (replaceChar '\\' '/' p)).dropLast
       else splitAll (replaceChar '\\' '/' p)) := by
  unfold splitPathComponents
  cases hq : replaceChar '\\' '/' p with
  | nil => simp [splitAll]
  | cons c rest =>
    have hmain := gsplitGo_eq (c :: rest) []
    rw [mapHead_nil] at hmain
    by_cases he : endsSlash (c :: rest) = true
    · simp only [he, if_true] at hmain
      simp [hmain, he]
    · simp only [he, if_false] at hmain
      simp [hmain, he]

theorem replaceChar_of_notMem (c1 c2 : Char) (l : List Char) (h : c1 ∉ l) :
    replaceChar c1 c2 l = l := by
  induction l with
  | nil => rfl
  | cons a t ih =>
    simp only [List.mem_cons, not_or] at h
    have ha : ¬a = c1 := fun hh => h.1 hh.symm
    simp only [replaceChar, List.map_cons] at ih ⊢
    rw [if_neg ha, ih h.2]

theorem notMem_replaceChar (c1 c2 : Char) (hne : c1 ≠ c2) (l : List Char) :
    c1 ∉ replaceChar c1 c2 l := by
  induction l with
  | nil => simp [replaceChar]
  | cons a t ih =>
    simp only [replaceChar, List.map_cons, List.mem_cons, not_or]
    constructor
    · by_cases ha : a = c1
      · simpa [ha] using hne
      · simpa [ha] using fun hh => ha hh.symm
    · simpa [replaceChar] using ih

theorem dedupSepGo_sublist (sep : Char) (l : List Char) : ∀ prev,
    List.Sublist (dedupSepGo sep prev l) l := by
  induction l with
  | nil => intro prev; simp [dedupSepGo]
  | cons b t ih =>
    intro prev
    by_cases hcond : prev = sep ∧ b = sep
    · rw [dedupSepGo, if_pos hcond]
      exact (ih prev).trans (List.sublist_cons_self b t)
    · rw [dedupSepGo, if_neg hcond]
      exact List.Sublist.cons₂ b (ih b)

theorem dedupSep_sublist (sep : Char) (l : List Char) :
    List.Sublist (dedupSep sep l) l := by
  cases l with
  | nil => simp [dedupSep]
  | cons a t => exact List.Sublist.cons₂ a (dedupSepGo_sublist sep t a)

theorem removeTrailingSlash_sublist (l : List Char) :
    List.Sublist (removeTrailingSlash l) l := by
  unfold removeTrailingSlash
  cases h : l.getLast? with
  | none => exact List.Sublist.refl l
  | some c =>
    show List.Sublist (if c = '\\' ∨ c = '/' then l.dropLast else l) l
    split
    · exact List.dropLast_sublist l
    · exact List.Sublist.refl l

theorem noAdj_cons_dedupGo (sep : Char) (l : List Char) : ∀ prev,
    noAdj sep (prev :: dedupSepGo sep prev l) = true := by
  induction l with
  | nil => intro prev; simp [dedupSepGo, noAdj]
  | cons b t ih =>
    intro prev
    by_cases hcond : prev = sep ∧ b = sep
    · rw [dedupSepGo, if_pos hcond]
      exact ih prev
    · rw [dedupSepGo, if_neg hcond]
      simp only [noAdj, Bool.and_eq_true]
      constructor
      · by_cases hp : prev = sep
        · have hbne : ¬b = sep := fun hb2 => hcond ⟨hp, hb2⟩
          simp [hbne]
        · simp [hp]
      · exact ih b

theorem noAdj_dedupSep (sep : Char) (l : List Char) :
    noAdj sep (dedupSep sep l) = true := by
  cases l with
  | nil => simp [dedupSep, noAdj]
  | cons a t => exact noAdj_cons_dedupGo sep t a

theorem dedupGo_of_noAdj (sep : Char) (l : List Char) : ∀ prev,
    noAdj sep (prev :: l) = true → dedupSepGo sep prev l = l := by
  induction l with
  | nil => intro prev _; rfl
  | cons b t ih =>
    intro prev h
    simp only [noAdj, Bool.and_eq_true] at h
    rw [dedupSepGo, if_neg, ih b h.2]
    intro hc
    rcases h with ⟨h1, _⟩
    simp [hc.1, hc.2] at h1

theorem dedupSep_of_noAdj (sep : Char) (l : List Char) (h : noAdj sep l = true) :
    dedupSep sep l = l := by
  cases l with
  | nil => rfl
  | cons a t =>
    rw [dedupSep, dedupGo_of_noAdj sep t a h]

theorem noAdj_dropLast (sep : Char) (l : List Char) (h : noAdj sep l = true) :
    noAdj sep l.dropLast = true := by
  induction l with
  | nil => simp [noAdj]
  | cons a t ih =>
    cases t with
    | nil => simp [noAdj]
    | cons b t' =>
      rw [List.dropLast_cons₂]
      simp only [noAdj, Bool.and_eq_true] at h
      have ih' := ih h.2
      cases t' with
      | nil => simp [noAdj]
      | cons e t'' =>
        rw [List.dropLast_cons₂] at ih' ⊢
        simp only [noAdj, Bool.and_eq_true]
        exact ⟨h.1, ih'⟩

theorem noAdj_getLast_dropLast (sep : Char) (l : List Char) (h : noAdj sep l = true)
    (hl : l.getLast? = some sep) : l.dropLast.getLast? ≠ some sep := by
  induction l with
  | nil => simp at hl
  | cons a t ih =>
    cases t with
    | nil => simp
    | cons b t' =>
      simp only [noAdj, Bool.and_eq_true] at h
      rw [List.getLast?_cons_cons] at hl
      cases t' with
      | nil =>
        have hb : b = sep := by simpa [List.getLast?_singleton] using hl
        have ha : ¬a = sep := by
          intro haeq
          rcases h with ⟨h1, _⟩
          simp [haeq, hb] at h1
        simpa [List.getLast?_singleton] using ha
      | cons e t'' =>
        have ih' := ih h.2 hl
        rw [List.dropLast_cons₂] at ih'
        rw [List.dropLast_cons₂, List.dropLast_cons₂, List.getLast?_cons_cons]
        exact ih'

theorem getLast?_mem_list (l : List Char) (a : Char) (h : l.getLast? = some a) : a ∈ l := by
  have hx : a ∈ l.getLast? := by simp [Option.mem_def, h]
  rcases List.mem_getLast?_eq_getLast hx with ⟨hne, heq⟩
  rw [heq]
  exact List.getLast_mem hne

theorem removeTrailingSlash_eq_self (l : List Char)
    (h : ∀ c, l.getLast? = some c → ¬(c = '\\' ∨ c = '/')) :
    removeTrailingSlash l = l := by
  unfold removeTrailingSlash
  cases hl : l.getLast? with
  | none => rfl
  | some c =>
    show (if c = '\\' ∨ c = '/' then l.dropLast else l) = l
    rw [if_neg (h c hl)]

theorem slash_eq_other (t1 t2 c : Char)
    (hs : ('\\' = t1 ∧ '/' = t2) ∨ ('\\' = t2 ∧ '/' = t1))
    (hslash : c = '\\' ∨ c = '/') (hne : c ≠ t1) : c = t2 := by
  rcases hs with ⟨hb, hf⟩ | ⟨hb, hf⟩
  · subst hb; subst hf
    rcases hslash with hc | hc
    · exact absurd hc hne
    · exact hc
  · subst hb; subst hf
    rcases hslash with hc | hc
    · exact hc
    · exact absurd hc hne

theorem removeTrailingSlash_noSlashEnd (t1 t2 : Char)
    (hs : ('\\' = t1 ∧ '/' = t2) ∨ ('\\' = t2 ∧ '/' = t1))
    (q : List Char) (h1 : t1 ∉ q) (h2 : noAdj t2 q = true) :
    ∀ c, (removeTrailingSlash q).getLast? = some c → ¬(c = '\\' ∨ c = '/') := by
  intro c hc hslash
  have hcq : c ∈ q := (removeTrailingSlash_sublist q).subset
    (getLast?_mem_list _ c hc)
  have hct1 : c ≠ t1 := fun hh => h1 (hh ▸ hcq)
  have hct2 : c = t2 := slash_eq_other t1 t2 c hs hslash hct1
  unfold removeTrailingSlash at hc
  cases hq : q.getLast? with
  | none => simp [hq] at hc
  | some c0 =>
    rw [hq] at hc
    have hc' : (if c0 = '\\' ∨ c0 = '/' then q.dropLast else q).getLast? = some c := hc
    by_cases hc0 : c0 = '\\' ∨ c0 = '/'
    · rw [if_pos hc0] at hc'
      have hc0q : c0 ∈ q := getLast?_mem_list q c0 hq
      have hc0t1 : c0 ≠ t1 := fun hh => h1 (hh ▸ hc0q)
      have hc0t2 : c0 = t2 := slash_eq_other t1 t2 c0 hs hc0 hc0t1
      exact noAdj_getLast_dropLast t2 q h2 (hc0t2 ▸ hq) (hct2 ▸ hc')
    · rw [if_neg hc0] at hc'
      rw [hq] at hc'
      have hcc : c0 = c := Option.some.inj hc'
      exact hc0 (hcc ▸ hslash)

theorem sanitize_idem_core (t1 t2 : Char) (hne : t1 ≠ t2)
    (hs : ('\\' = t1 ∧ '/' = t2) ∨ ('\\' = t2 ∧ '/' = t1)) (p : List Char) :
    removeTrailingSlash (dedupSep t2 (replaceChar t1 t2
        (removeTrailingSlash (dedupSep t2 (replaceChar t1 t2 p)))))
      = removeTrailingSlash (dedupSep t2 (replaceChar t1 t2 p)) := by
  set q := dedupSep t2 (replaceChar t1 t2 p) with hq
  set r := removeTrailingSlash q with hr
  have h1q : t1 ∉ q := fun hmem =>
    notMem_replaceChar t1 t2 hne p ((dedupSep_sublist t2 _).subset hmem)
  have h2q : noAdj t2 q = true := noAdj_dedupSep t2 _
  have h1r : t1 ∉ r := fun hmem => h1q ((removeTrailingSlash_sublist q).subset hmem)
  have h2r : noAdj t2 r = true := by
    rw [hr]
    unfold removeTrailingSlash
    cases hql : q.getLast? with
    | none => exact h2q
    | some c =>
      show noAdj t2 (if c = '\\' ∨ c = '/' then q.dropLast else q) = true
      split
      · exact noAdj_dropLast t2 q h2q
      · exact h2q
  have hrepl : replaceChar t1 t2 r = r := replaceChar_of_notMem t1 t2 r h1r
  have hded : dedupSep t2 r = r := dedupSep_of_noAdj t2 r h2r
  have hrem : removeTrailingSlash r = r :=
    removeTrailingSlash_eq_self r (removeTrailingSlash_noSlashEnd t1 t2 hs q h1q h2q)
  rw [hrepl, hded, hrem]

/-- C3 (amended): in the non-Win32 configuration `SanitizePath` is
idempotent for every path and every separator preference; the Win32
configuration is excluded (see the counterexample at `"//"`). -/
theorem c3_amended (ds : DirectorySeparator) (p : List Char) :
    sanitizePath false ds (sanitizePath false ds p) = sanitizePath false ds p := by
  cases ds with
  | ForwardSlash =>
    simp only [sanitizePath, sepChars, sanitizeCollapse, Bool.false_eq_true, if_false]
    exact sanitize_idem_core '\\' '/' (by decide) (Or.inl ⟨rfl, rfl⟩) p
  | BackwardSlash =>
    simp only [sanitizePath, sepChars, sanitizeCollapse, Bool.false_eq_true, if_false]
    exact sanitize_idem_core '/' '\\' (by decide) (Or.inr ⟨rfl, rfl⟩) p
  | PlatformDefault =>
    simp only [sanitizePath, sepChars, sanitizeCollapse, Bool.false_eq_true, if_false]
    exact sanitize_idem_core '\\' '/' (by decide) (Or.inl ⟨rfl, rfl⟩) p

end FileUtil
